import Mathlib

/-!
Verification of the entry index and view-selection engine of nrrdjrnl
(src/nrrdjrnl/nrrdjrnl.py), a file-based journal manager.

The development shallow-embeds the core of the `Journals` class:
  * `_date_or_none`  (date classification),
  * `_parse_files`   (directory scan building the ordered index),
  * `list`           (named view selection),
  * `search`         (literal / regex search with excerpts).

External Python libraries are modelled explicitly:
  * `datetime.date` is modelled by the `Date` structure together with exact
    day arithmetic (`predD`/`succD`/`subDays`/`addDays`), a rata-die counter
    `toRD` (day 1 = 0001-01-01, a Monday in the proleptic Gregorian
    calendar) and `pyWeekday` (Monday = 0 .. Sunday = 6);
  * `dateutil.parser.parse` is modelled by `parseISO`, restricted to the
    ISO-8601 calendar-date formats YYYY-MM-DD and YYYYMMDD that journal
    file names use (the spec's external-interface section fixes exactly
    these filename forms);
  * the `re` module is modelled by a small regular-expression engine
    (`re_compile` / `reSearch`) covering literals, '.', character classes,
    groups, alternation and the postfix operators; metacharacters outside
    this fragment make compilation fail;
  * `calendar.Calendar.iterweekdays` is modelled by `iterweekdays`.
-/

namespace Nrrdjrnl

/-! ### Dates (model of `datetime.date`) -/

/-- A calendar date, modelling Python `datetime.date` (year, month, day). -/
structure Date where
  year : Nat
  month : Nat
  day : Nat
deriving DecidableEq, Repr

/-- Gregorian leap-year test, as in Python `calendar.isleap`. -/
def isLeap (y : Nat) : Bool :=
  (y % 4 == 0 && y % 100 != 0) || (y % 400 == 0)

/-- Number of days in a month, as returned by `calendar.monthrange(y, m)[1]`.
Months outside 1..12 never occur on the paths we model; the default arm
keeps the function total. -/
def daysInMonth (y m : Nat) : Nat :=
  match m with
  | 1 => 31
  | 2 => if isLeap y then 29 else 28
  | 3 => 31
  | 4 => 30
  | 5 => 31
  | 6 => 30
  | 7 => 31
  | 8 => 31
  | 9 => 30
  | 10 => 31
  | 11 => 30
  | 12 => 31
  | _ => 31

/-- Days strictly before month `m` within year `y`. -/
def daysBeforeMonth (y m : Nat) : Nat :=
  let L : Nat := if isLeap y then 1 else 0
  match m with
  | 1 => 0
  | 2 => 31
  | 3 => 59 + L
  | 4 => 90 + L
  | 5 => 120 + L
  | 6 => 151 + L
  | 7 => 181 + L
  | 8 => 212 + L
  | 9 => 243 + L
  | 10 => 273 + L
  | 11 => 304 + L
  | 12 => 334 + L
  | _ => 365 + L

/-- Number of leap years in `1 .. y-1`. -/
def leapsBefore (y : Nat) : Nat :=
  (y - 1) / 4 - (y - 1) / 100 + (y - 1) / 400

/-- Rata-die day number: `toRD ⟨1,1,1⟩ = 1`.  Models the day counter that
underlies Python `date` subtraction and `date.weekday()`. -/
def toRD (d : Date) : Nat :=
  365 * (d.year - 1) + leapsBefore d.year + daysBeforeMonth d.year d.month + d.day

/-- Structurally well-formed date (fields in calendar range, year positive).
Used by the day-arithmetic lemmas. -/
def Date.okd (d : Date) : Prop :=
  1 ≤ d.year ∧ 1 ≤ d.month ∧ d.month ≤ 12 ∧ 1 ≤ d.day ∧ d.day ≤ daysInMonth d.year d.month

instance (d : Date) : Decidable d.okd := by
  unfold Date.okd; infer_instance

/-- A date representable by Python `datetime.date` (which caps years at 9999). -/
def Date.valid (d : Date) : Prop :=
  1 ≤ d.year ∧ d.year ≤ 9999 ∧ 1 ≤ d.month ∧ d.month ≤ 12 ∧
    1 ≤ d.day ∧ d.day ≤ daysInMonth d.year d.month

instance (d : Date) : Decidable d.valid := by
  unfold Date.valid; infer_instance

theorem Date.valid.okd {d : Date} (h : d.valid) : d.okd := by
  obtain ⟨h1, h2, h3, h4, h5, h6⟩ := h; exact ⟨h1, h3, h4, h5, h6⟩

/-- Python `date` ordering (lexicographic on (year, month, day)). -/
def dateLe (a b : Date) : Prop :=
  a.year < b.year ∨
    (a.year = b.year ∧ (a.month < b.month ∨ (a.month = b.month ∧ a.day ≤ b.day)))

instance : DecidableRel dateLe := fun a b => by
  unfold dateLe; infer_instance

theorem dateLe_total (a b : Date) : dateLe a b ∨ dateLe b a := by
  unfold dateLe; omega

theorem dateLe_trans {a b c : Date} (h1 : dateLe a b) (h2 : dateLe b c) : dateLe a c := by
  unfold dateLe at *; omega

/-- The previous calendar day. -/
def predD (d : Date) : Date :=
  if 1 < d.day then ⟨d.year, d.month, d.day - 1⟩
  else if 1 < d.month then ⟨d.year, d.month - 1, daysInMonth d.year (d.month - 1)⟩
  else ⟨d.year - 1, 12, 31⟩

/-- The next calendar day. -/
def succD (d : Date) : Date :=
  if d.day < daysInMonth d.year d.month then ⟨d.year, d.month, d.day + 1⟩
  else if d.month < 12 then ⟨d.year, d.month + 1, 1⟩
  else ⟨d.year + 1, 1, 1⟩

/-- `d - timedelta(days = n)` for Python dates (exact day arithmetic). -/
def subDays (d : Date) : Nat → Date
  | 0 => d
  | n + 1 => subDays (predD d) n

/-- `d + timedelta(days = n)` for Python dates (exact day arithmetic). -/
def addDays (d : Date) : Nat → Date
  | 0 => d
  | n + 1 => addDays (succD d) n

/-- Python `date.weekday()`: Monday = 0 .. Sunday = 6.  0001-01-01 has
rata die 1 and is a Monday in the proleptic Gregorian calendar. -/
def pyWeekday (d : Date) : Nat := (toRD d + 6) % 7

@[simp] theorem Date.year_mk (y m d : Nat) : (⟨y, m, d⟩ : Date).year = y := rfl

@[simp] theorem Date.month_mk (y m d : Nat) : (⟨y, m, d⟩ : Date).month = m := rfl

@[simp] theorem Date.day_mk (y m d : Nat) : (⟨y, m, d⟩ : Date).day = d := rfl

theorem daysInMonth_pos (y m : Nat) : 1 ≤ daysInMonth y m := by
  unfold daysInMonth
  split <;> first
    | decide
    | (split <;> decide)

theorem daysInMonth_le (y m : Nat) : daysInMonth y m ≤ 31 := by
  unfold daysInMonth
  split <;> first
    | decide
    | (split <;> decide)

theorem daysBeforeMonth_step (y m : Nat) (h2 : 2 ≤ m) (h12 : m ≤ 12) :
    daysBeforeMonth y m = daysBeforeMonth y (m - 1) + daysInMonth y (m - 1) := by
  interval_cases m <;>
    simp only [daysBeforeMonth, daysInMonth] <;>
    cases isLeap y <;> simp

theorem leapsBefore_step (y : Nat) (h : 1 ≤ y) :
    leapsBefore (y + 1) = leapsBefore y + (if isLeap y then 1 else 0) := by
  unfold leapsBefore isLeap
  rw [Nat.add_sub_cancel]
  simp only [Bool.or_eq_true, Bool.and_eq_true, beq_iff_eq, bne_iff_ne]
  split_ifs with hh
  · omega
  · omega

theorem toRD_predD {d : Date} (hok : d.okd) (h2 : 2 ≤ toRD d) :
    (predD d).okd ∧ toRD (predD d) + 1 = toRD d := by
  obtain ⟨y, m, dd⟩ := d
  simp only [Date.okd, Date.year_mk, Date.month_mk, Date.day_mk] at hok
  obtain ⟨hy, hm1, hm2, hd1, hd2⟩ := hok
  by_cases hday : 1 < dd
  · have hp : predD ⟨y, m, dd⟩ = ⟨y, m, dd - 1⟩ := by
      unfold predD
      simp only [Date.year_mk, Date.month_mk, Date.day_mk]
      rw [if_pos hday]
    rw [hp]
    constructor
    · simp only [Date.okd, Date.year_mk, Date.month_mk, Date.day_mk]
      omega
    · simp only [toRD, Date.year_mk, Date.month_mk, Date.day_mk]; omega
  · by_cases hmon : 1 < m
    · have hp : predD ⟨y, m, dd⟩ = ⟨y, m - 1, daysInMonth y (m - 1)⟩ := by
        unfold predD
        simp only [Date.year_mk, Date.month_mk, Date.day_mk]
        rw [if_neg hday, if_pos hmon]
      rw [hp]
      have hstep := daysBeforeMonth_step y m (by omega) hm2
      have hpos := daysInMonth_pos y (m - 1)
      have hday1 : dd = 1 := by omega
      constructor
      · simp only [Date.okd, Date.year_mk, Date.month_mk, Date.day_mk]
        omega
      · simp only [toRD, Date.year_mk, Date.month_mk, Date.day_mk]
        omega
    · -- day = 1, month = 1; the year must be at least 2
      have hp : predD ⟨y, m, dd⟩ = ⟨y - 1, 12, 31⟩ := by
        unfold predD
        simp only [Date.year_mk, Date.month_mk, Date.day_mk]
        rw [if_neg hday, if_neg hmon]
      rw [hp]
      have hmon1 : m = 1 := by omega
      have hday1 : dd = 1 := by omega
      have hdbm : daysBeforeMonth y m = 0 := by
        rw [hmon1]; rfl
      have hy2 : 2 ≤ y := by
        by_contra hcon
        have hy1 : y = 1 := by omega
        have hl1 : leapsBefore 1 = 0 := rfl
        simp only [toRD, Date.year_mk, Date.month_mk, Date.day_mk,
          hy1, hday1] at h2
        rw [hy1] at hdbm
        omega
      have hstep := leapsBefore_step (y - 1) (by omega)
      have hyy : y - 1 + 1 = y := by omega
      rw [hyy] at hstep
      have hdb12 : daysBeforeMonth (y - 1) 12
          = 334 + (if isLeap (y - 1) then 1 else 0) := by
        simp [daysBeforeMonth]
      constructor
      · simp only [Date.okd, Date.year_mk, Date.month_mk, Date.day_mk, daysInMonth]
        omega
      · simp only [toRD, Date.year_mk, Date.month_mk, Date.day_mk,
          hdbm, hday1, hdb12]
        cases hc : isLeap (y - 1) <;> simp only [hc, if_true, if_false] at hstep ⊢ <;> omega

theorem toRD_succD {d : Date} (hok : d.okd) :
    (succD d).okd ∧ toRD (succD d) = toRD d + 1 := by
  obtain ⟨y, m, dd⟩ := d
  simp only [Date.okd, Date.year_mk, Date.month_mk, Date.day_mk] at hok
  obtain ⟨hy, hm1, hm2, hd1, hd2⟩ := hok
  by_cases hday : dd < daysInMonth y m
  · have hp : succD ⟨y, m, dd⟩ = ⟨y, m, dd + 1⟩ := by
      unfold succD
      simp only [Date.year_mk, Date.month_mk, Date.day_mk]
      rw [if_pos hday]
    rw [hp]
    constructor
    · simp only [Date.okd, Date.year_mk, Date.month_mk, Date.day_mk]
      omega
    · simp only [toRD, Date.year_mk, Date.month_mk, Date.day_mk]; omega
  · by_cases hmon : m < 12
    · have hp : succD ⟨y, m, dd⟩ = ⟨y, m + 1, 1⟩ := by
        unfold succD
        simp only [Date.year_mk, Date.month_mk, Date.day_mk]
        rw [if_neg hday, if_pos hmon]
      rw [hp]
      have hstep := daysBeforeMonth_step y (m + 1) (by omega) (by omega)
      rw [Nat.add_sub_cancel] at hstep
      have hdm : dd = daysInMonth y m := by omega
      have hpos := daysInMonth_pos y (m + 1)
      constructor
      · simp only [Date.okd, Date.year_mk, Date.month_mk, Date.day_mk]
        omega
      · simp only [toRD, Date.year_mk, Date.month_mk, Date.day_mk]
        omega
    · have hp : succD ⟨y, m, dd⟩ = ⟨y + 1, 1, 1⟩ := by
        unfold succD
        simp only [Date.year_mk, Date.month_mk, Date.day_mk]
        rw [if_neg hday, if_neg hmon]
      rw [hp]
      have hmon12 : m = 12 := by omega
      have hday31 : dd = 31 := by
        rw [hmon12] at hd2 hday
        simp only [daysInMonth] at hd2 hday
        omega
      have hstep := leapsBefore_step y hy
      have hdb12 : daysBeforeMonth y 12
          = 334 + (if isLeap y then 1 else 0) := by
        simp [daysBeforeMonth]
      have hdb1 : daysBeforeMonth (y + 1) 1 = 0 := rfl
      constructor
      · simp only [Date.okd, Date.year_mk, Date.month_mk, Date.day_mk, daysInMonth]
        omega
      · simp only [toRD, Date.year_mk, Date.month_mk, Date.day_mk,
          hmon12, hday31, hdb12, hdb1]
        cases hc : isLeap y <;> simp only [hc, if_true, if_false] at hstep ⊢ <;> omega

theorem toRD_subDays {d : Date} {n : Nat} (hok : d.okd) (h : n + 1 ≤ toRD d) :
    (subDays d n).okd ∧ toRD (subDays d n) + n = toRD d := by
  induction n generalizing d with
  | zero => exact ⟨hok, rfl⟩
  | succ k ih =>
    have hp := toRD_predD hok (by omega)
    have hrec := ih hp.1 (by omega)
    refine ⟨hrec.1, ?_⟩
    simp only [subDays] at *
    omega

theorem toRD_addDays {d : Date} {n : Nat} (hok : d.okd) :
    (addDays d n).okd ∧ toRD (addDays d n) = toRD d + n := by
  induction n generalizing d with
  | zero => exact ⟨hok, rfl⟩
  | succ k ih =>
    have hp := toRD_succD hok
    have hrec := ih hp.1
    refine ⟨hrec.1, ?_⟩
    simp only [addDays] at *
    omega

theorem toRD_large {d : Date} (hok : d.okd) (h : 2 ≤ d.year) : 366 ≤ toRD d := by
  obtain ⟨hy, hm1, hm2, hd1, hd2⟩ := hok
  have h365 : 365 ≤ 365 * (d.year - 1) := by
    have : 1 ≤ d.year - 1 := by omega
    omega
  simp only [toRD]
  omega

/-! ### Date classification (model of `_date_or_none`, nrrdjrnl.py lines 250-269)

`_date_or_none` either normalizes an input that is already a `datetime.date`
instance via `astimezone`, or parses a string with `dateutil.parser.parse`,
converts to the local timezone and keeps the calendar date.  `TypeError`,
`ValueError` and `ParserError` are caught and yield `None`.

`dateutil.parser.parse` is modelled by `parseISO`, restricted to the two
ISO-8601 calendar-date layouts (YYYY-MM-DD and YYYYMMDD) that journal file
names and user-supplied date strings use per the spec's external-interface
section; out-of-range components make `datetime` raise inside the parser,
which surfaces as a parse failure. -/

/-- Digit character to its value; any other character fails. -/
def charDigit : Char → Option Nat
  | '9' => some 9
  | '8' => some 8
  | '7' => some 7
  | '6' => some 6
  | '5' => some 5
  | '4' => some 4
  | '3' => some 3
  | '2' => some 2
  | '1' => some 1
  | '0' => some 0
  | _ => none

/-- Value of a digit as a character. -/
def digitChar (n : Nat) : Char := Char.ofNat (48 + n)

/-- Two decimal digits. -/
def dig2 (a b : Char) : Option Nat :=
  match charDigit a, charDigit b with
  | some x, some y => some (10 * x + y)
  | _, _ => none

/-- Four decimal digits. -/
def dig4 (a b c d : Char) : Option Nat :=
  match dig2 a b, dig2 c d with
  | some x, some y => some (100 * x + y)
  | _, _ => none

/-- Range validation done by the `datetime.date` constructor inside the
parser: invalid components raise, which `_date_or_none` turns into `None`. -/
def checkDate (y m d : Nat) : Option Date :=
  if (⟨y, m, d⟩ : Date).valid then some ⟨y, m, d⟩ else none

/-- Character-list form of the ISO parser: a 10-character extended layout
`YYYY-MM-DD` or an 8-character basic layout `YYYYMMDD`. -/
def parseISOchars : List Char → Option Date
  | [y1, y2, y3, y4, s1, m1, m2, s2, d1, d2] =>
    if s1 = '-' ∧ s2 = '-' then
      (dig4 y1 y2 y3 y4).bind fun y =>
        (dig2 m1 m2).bind fun m =>
          (dig2 d1 d2).bind fun dd => checkDate y m dd
    else none
  | [y1, y2, y3, y4, m1, m2, d1, d2] =>
    (dig4 y1 y2 y3 y4).bind fun y =>
      (dig2 m1 m2).bind fun m =>
        (dig2 d1 d2).bind fun dd => checkDate y m dd
  | _ => none

/-- Model of `dateutil.parser.parse` on the ISO calendar-date formats
`YYYY-MM-DD` (extended) and `YYYYMMDD` (basic), returning the parsed
calendar date. -/
def parseISO (s : String) : Option Date := parseISOchars s.data

/-- The extended ISO rendering `YYYY-MM-DD` of a date (what `str(date)`
produces in Python, and the journal's canonical filename form). -/
def renderISOext (d : Date) : String :=
  ⟨[digitChar (d.year / 1000), digitChar (d.year / 100 % 10),
    digitChar (d.year / 10 % 10), digitChar (d.year % 10), '-',
    digitChar (d.month / 10), digitChar (d.month % 10), '-',
    digitChar (d.day / 10), digitChar (d.day % 10)]⟩

/-- The basic ISO rendering `YYYYMMDD` of a date. -/
def renderISObasic (d : Date) : String :=
  ⟨[digitChar (d.year / 1000), digitChar (d.year / 100 % 10),
    digitChar (d.year / 10 % 10), digitChar (d.year % 10),
    digitChar (d.month / 10), digitChar (d.month % 10),
    digitChar (d.day / 10), digitChar (d.day % 10)]⟩

/-- Possible inputs to `_date_or_none`: a `datetime.date` instance, a
`datetime.datetime` instance (a subclass of `date`, so it takes the same
branch), a string, or `None`. -/
inductive PyDateInput where
  | pydate (d : Date)
  | pydatetime (d : Date)
  | pystr (s : String)
  | pynone
deriving DecidableEq, Repr

/-- Possible successful classification values: the `isinstance` branch
returns the `astimezone` result (still a `datetime`, `.date()` is not
applied there), while the string branch returns a plain date. -/
inductive PyDateResult where
  | asDatetime (d : Date)
  | asDate (d : Date)
deriving DecidableEq, Repr

/-- `_date_or_none` (nrrdjrnl.py lines 250-269).  `Except` models an
uncaught Python exception.

* a `datetime.datetime` input passes the `isinstance(datestr, date)` test
  and `astimezone(tz=self.ltz)` reinterprets the naive wall-clock time in
  the local timezone, leaving the calendar fields unchanged;
* a plain `datetime.date` input also passes the `isinstance` test, but
  `date` has no `astimezone` method, so the call raises `AttributeError`,
  which the `except (TypeError, ValueError, ParserError)` clause does not
  catch;
* a string is parsed (`parseISO`); parser failures are caught and yield
  `None`;
* `None` makes `dtparser.parse` raise `TypeError`, which is caught. -/
def date_or_none : PyDateInput → Except String (Option PyDateResult)
  | .pydate _ => .error "AttributeError"
  | .pydatetime d => .ok (some (.asDatetime d))
  | .pystr s => .ok ((parseISO s).map .asDate)
  | .pynone => .ok none

/-- The five-character clock-time layout `HH:MM` rendered from hour and
minute values. -/
def renderTime (hh mm : Nat) : String :=
  ⟨[digitChar (hh / 10), digitChar (hh % 10), ':',
    digitChar (mm / 10), digitChar (mm % 10)]⟩

/-- The string branch of `_date_or_none` (lines 263-268) with the
leniency of `dateutil.parser.parse` made explicit on the clock-time
layout `HH:MM`.  `dtparser.parse` is a general, locale-tolerant parser:
it accepts a pure time string and fills the missing calendar fields
from the current day (its default is built from `datetime.now()`), so
`.astimezone(tz=self.ltz).date()` returns the current day's calendar
date, supplied here as `today`.  An out-of-range hour or minute makes
the parse raise, which the `except` clause turns into `None`.  Every
other string falls back to the ISO calendar-date layouts of
`parseISOchars`; `dtparser.parse` accepts further formats (weekday
names, bare numerals, month names) that this model does not cover, and
no theorem below relies on their absence. -/
def date_or_none_lenient (today : Date) (s : String) : Option Date :=
  match s.data with
  | [h1, h2, c, m1, m2] =>
    if c = ':' then
      (dig2 h1 h2).bind fun hh =>
        (dig2 m1 m2).bind fun mm =>
          if hh ≤ 23 ∧ mm ≤ 59 then some today else none
    else none
  | l => parseISOchars l

theorem charDigit_digitChar {n : Nat} (h : n < 10) :
    charDigit (digitChar n) = some n := by
  interval_cases n <;> rfl

theorem charDigit_inv {c : Char} {n : Nat} (h : charDigit c = some n) :
    digitChar n = c ∧ n < 10 := by
  unfold charDigit at h
  split at h <;> simp_all <;> subst h <;> exact ⟨rfl, by omega⟩

theorem dig2_digits {n : Nat} (h : n < 100) :
    dig2 (digitChar (n / 10)) (digitChar (n % 10)) = some n := by
  unfold dig2
  rw [charDigit_digitChar (by omega), charDigit_digitChar (by omega)]
  simp
  omega

theorem dig4_digits {n : Nat} (h : n < 10000) :
    dig4 (digitChar (n / 1000)) (digitChar (n / 100 % 10))
      (digitChar (n / 10 % 10)) (digitChar (n % 10)) = some n := by
  unfold dig4
  have h1 : n / 1000 < 10 := by omega
  have heq : n / 100 % 10 = (n / 100) % 10 := rfl
  rw [show digitChar (n / 1000) = digitChar ((n / 100) / 10) by congr 1; omega]
  rw [dig2_digits (by omega)]
  rw [show digitChar (n / 10 % 10) = digitChar ((n % 100) / 10) by congr 1; omega]
  rw [show digitChar (n % 10) = digitChar ((n % 100) % 10) by congr 1; omega]
  rw [dig2_digits (by omega)]
  simp
  omega

theorem dig2_inv {a b : Char} {n : Nat} (h : dig2 a b = some n) :
    n < 100 ∧ a = digitChar (n / 10) ∧ b = digitChar (n % 10) := by
  unfold dig2 at h
  split at h
  case _ x y hx hy =>
    obtain ⟨hae, hax⟩ := charDigit_inv hx
    obtain ⟨hbe, hbx⟩ := charDigit_inv hy
    simp only [Option.some.injEq] at h
    refine ⟨by omega, ?_, ?_⟩
    · rw [← hae]; congr 1; omega
    · rw [← hbe]; congr 1; omega
  case _ => exact absurd h (by simp)

theorem dig4_inv {a b c d : Char} {n : Nat} (h : dig4 a b c d = some n) :
    n < 10000 ∧ a = digitChar (n / 1000) ∧ b = digitChar (n / 100 % 10) ∧
      c = digitChar (n / 10 % 10) ∧ d = digitChar (n % 10) := by
  unfold dig4 at h
  split at h
  case _ x y hx hy =>
    obtain ⟨hx1, hx2, hx3⟩ := dig2_inv hx
    obtain ⟨hy1, hy2, hy3⟩ := dig2_inv hy
    simp only [Option.some.injEq] at h
    refine ⟨by omega, ?_, ?_, ?_, ?_⟩
    · rw [hx2]; congr 1; omega
    · rw [hx3]; congr 1; omega
    · rw [hy2]; congr 1; omega
    · rw [hy3]; congr 1; omega
  case _ => exact absurd h (by simp)

theorem checkDate_self {d : Date} (h : d.valid) :
    checkDate d.year d.month d.day = some d := by
  unfold checkDate
  rw [if_pos (show ((⟨d.year, d.month, d.day⟩ : Date)).valid from h)]

theorem parseISO_renderext {d : Date} (h : d.valid) :
    parseISO (renderISOext d) = some d := by
  have hb := h
  obtain ⟨h1, h2, h3, h4, h5, h6⟩ := hb
  show parseISOchars
    [digitChar (d.year / 1000), digitChar (d.year / 100 % 10),
     digitChar (d.year / 10 % 10), digitChar (d.year % 10), '-',
     digitChar (d.month / 10), digitChar (d.month % 10), '-',
     digitChar (d.day / 10), digitChar (d.day % 10)] = some d
  simp only [parseISOchars]
  rw [if_pos (by simp)]
  rw [dig4_digits (by omega), dig2_digits (by omega),
    dig2_digits (by have := daysInMonth_le d.year d.month; omega)]
  simp only [Option.some_bind]
  exact checkDate_self h

theorem parseISO_renderbasic {d : Date} (h : d.valid) :
    parseISO (renderISObasic d) = some d := by
  have hb := h
  obtain ⟨h1, h2, h3, h4, h5, h6⟩ := hb
  show parseISOchars
    [digitChar (d.year / 1000), digitChar (d.year / 100 % 10),
     digitChar (d.year / 10 % 10), digitChar (d.year % 10),
     digitChar (d.month / 10), digitChar (d.month % 10),
     digitChar (d.day / 10), digitChar (d.day % 10)] = some d
  simp only [parseISOchars]
  rw [dig4_digits (by omega), dig2_digits (by omega),
    dig2_digits (by have := daysInMonth_le d.year d.month; omega)]
  simp only [Option.some_bind]
  exact checkDate_self h

theorem parseISO_complete {s : String} {d : Date} (h : parseISO s = some d) :
    d.valid ∧ (s = renderISOext d ∨ s = renderISObasic d) := by
  obtain ⟨l⟩ := s
  replace h : parseISOchars l = some d := h
  unfold parseISOchars at h
  split at h
  case _ y1 y2 y3 y4 s1 m1 m2 s2 d1 d2 =>
    by_cases hdash : s1 = '-' ∧ s2 = '-'
    case neg =>
      rw [if_neg hdash] at h
      exact absurd h (by simp)
    case pos =>
      rw [if_pos hdash] at h
      simp only [Option.bind_eq_some] at h
      obtain ⟨y, hy, m, hm, dd, hdd, hcd⟩ := h
      obtain ⟨hy1, hy2, hy3, hy4, hy5⟩ := dig4_inv hy
      obtain ⟨hm1, hm2, hm3⟩ := dig2_inv hm
      obtain ⟨hd1, hd2, hd3⟩ := dig2_inv hdd
      unfold checkDate at hcd
      split at hcd
      case _ hvalid =>
        simp only [Option.some.injEq] at hcd
        subst hcd
        refine ⟨hvalid, Or.inl ?_⟩
        apply congrArg String.mk
        simp only [renderISOext, Date.year_mk, Date.month_mk, Date.day_mk]
        rw [hy2, hy3, hy4, hy5, hm2, hm3, hd2, hd3, hdash.1, hdash.2]
      case _ => exact absurd hcd (by simp)
  case _ y1 y2 y3 y4 m1 m2 d1 d2 =>
    simp only [Option.bind_eq_some] at h
    obtain ⟨y, hy, m, hm, dd, hdd, hcd⟩ := h
    obtain ⟨hy1, hy2, hy3, hy4, hy5⟩ := dig4_inv hy
    obtain ⟨hm1, hm2, hm3⟩ := dig2_inv hm
    obtain ⟨hd1, hd2, hd3⟩ := dig2_inv hdd
    unfold checkDate at hcd
    split at hcd
    case _ hvalid =>
      simp only [Option.some.injEq] at hcd
      subst hcd
      refine ⟨hvalid, Or.inr ?_⟩
      apply congrArg String.mk
      simp only [renderISObasic, Date.year_mk, Date.month_mk, Date.day_mk]
      rw [hy2, hy3, hy4, hy5, hm2, hm3, hd2, hd3]
    case _ => exact absurd hcd (by simp)
  case _ => exact absurd h (by simp)

/-! ### Regular expressions (model of the `re` module)

`re.compile` / `re.search` are modelled by a small engine covering the
fragment of Python regex syntax relevant to search terms: literal
characters, `.`, character classes (with negation and ranges), groups,
alternation, the postfix operators `* + ?` and backslash escapes.
Metacharacters outside the fragment make compilation fail, and malformed
patterns (unterminated classes or groups, dangling operators, trailing
backslash) fail to compile exactly as in Python. -/

/-- Regular-expression syntax trees. -/
inductive Re where
  | fail
  | eps
  | chr (c : Char)
  | dot
  | cls (neg : Bool) (items : List (Char × Char))
  | cat (a b : Re)
  | alt (a b : Re)
  | star (r : Re)
deriving DecidableEq, Repr

/-- Items of a character class, read until the closing `]`; `none` when the
class is unterminated. -/
def parseClsItems : List Char → Option (List (Char × Char) × List Char)
  | [] => none
  | ']' :: rest => some ([], rest)
  | '\\' :: c :: rest =>
    (parseClsItems rest).map (fun p => ((c, c) :: p.1, p.2))
  | c :: '-' :: d :: rest =>
    if d = ']' then some ([(c, c), ('-', '-')], rest)
    else (parseClsItems rest).map (fun p => ((c, d) :: p.1, p.2))
  | c :: rest =>
    (parseClsItems rest).map (fun p => ((c, c) :: p.1, p.2))

/-- A character class after `[`: optional negation, then items; a `]` in
first position is a literal member (as in Python). -/
def parseCls (cs : List Char) : Option ((Bool × List (Char × Char)) × List Char) :=
  match cs with
  | '^' :: rest =>
    match rest with
    | ']' :: rest2 =>
      (parseClsItems rest2).map (fun p => ((true, (']', ']') :: p.1), p.2))
    | _ => (parseClsItems rest).map (fun p => ((true, p.1), p.2))
  | ']' :: rest2 =>
    (parseClsItems rest2).map (fun p => ((false, (']', ']') :: p.1), p.2))
  | _ => (parseClsItems cs).map (fun p => ((false, p.1), p.2))

/-- Recursive-descent parser for the pattern grammar, indexed by level:
level 3 parses an alternation, level 2 a concatenation, level 1 an atom
with an optional postfix operator, level 0 a bare atom.  The fuel argument
makes the recursion structural; `re_compile` supplies enough fuel that it
never runs out on any input. -/
def parseR : Nat → Nat → List Char → Option (Re × List Char)
  | 0, _, _ => none
  | fuel + 1, 3, cs =>
    (parseR fuel 2 cs).bind fun p1 =>
      match p1.2 with
      | '|' :: rest2 =>
        (parseR fuel 3 rest2).bind fun p2 => some (.alt p1.1 p2.1, p2.2)
      | _ => some p1
  | fuel + 1, 2, cs =>
    match cs with
    | [] => some (.eps, [])
    | ')' :: _ => some (.eps, cs)
    | '|' :: _ => some (.eps, cs)
    | _ =>
      (parseR fuel 1 cs).bind fun p1 =>
        (parseR fuel 2 p1.2).bind fun p2 => some (.cat p1.1 p2.1, p2.2)
  | fuel + 1, 1, cs =>
    (parseR fuel 0 cs).bind fun p1 =>
      match p1.2 with
      | '*' :: r => some (.star p1.1, r)
      | '+' :: r => some (.cat p1.1 (.star p1.1), r)
      | '?' :: r => some (.alt p1.1 .eps, r)
      | _ => some p1
  | fuel + 1, _, cs =>
    match cs with
    | [] => none
    | '(' :: rest =>
      (parseR fuel 3 rest).bind fun p1 =>
        match p1.2 with
        | ')' :: rest3 => some (p1.1, rest3)
        | _ => none
    | '[' :: rest =>
      (parseCls rest).map (fun p => (.cls p.1.1 p.1.2, p.2))
    | '\\' :: c :: rest => some (.chr c, rest)
    | '\\' :: [] => none
    | '.' :: rest => some (.dot, rest)
    | '*' :: _ => none
    | '+' :: _ => none
    | '?' :: _ => none
    | ')' :: _ => none
    | '|' :: _ => none
    | c :: rest => some (.chr c, rest)

/-- Model of `re.compile`: `some` on success, `none` on `re.error`. -/
def re_compile (s : String) : Option Re :=
  match parseR (8 * s.length + 16) 3 s.data with
  | some (r, []) => some r
  | _ => none

/-- Does the regex accept the empty string? -/
def nullable : Re → Bool
  | .fail => false
  | .eps => true
  | .chr _ => false
  | .dot => false
  | .cls _ _ => false
  | .cat a b => nullable a && nullable b
  | .alt a b => nullable a || nullable b
  | .star _ => true

/-- Character-class membership. -/
def clsMatch (neg : Bool) (items : List (Char × Char)) (c : Char) : Bool :=
  let inCls := items.any (fun p => decide (p.1 ≤ c) && decide (c ≤ p.2))
  if neg then !inCls else inCls

/-- Brzozowski derivative of a regex by a character.  `.` does not match a
newline, as in Python without `re.DOTALL`. -/
def deriv (r : Re) (c : Char) : Re :=
  match r with
  | .fail => .fail
  | .eps => .fail
  | .chr a => if a = c then .eps else .fail
  | .dot => if c = '\n' then .fail else .eps
  | .cls neg items => if clsMatch neg items c then .eps else .fail
  | .cat a b =>
    if nullable a then .alt (.cat (deriv a c) b) (deriv b c)
    else .cat (deriv a c) b
  | .alt a b => .alt (deriv a c) (deriv b c)
  | .star a => .cat (deriv a c) (.star a)

/-- Does some prefix of `cs` match `r`? -/
def matchPrefix (r : Re) : List Char → Bool
  | [] => nullable r
  | c :: cs => nullable r || matchPrefix (deriv r c) cs

/-- Model of `re.search`: does the pattern match anywhere in the string? -/
def reSearch (r : Re) (s : String) : Bool :=
  s.data.tails.any (fun t => matchPrefix r t)

/-! ### Entry data and search (model of `Entries.search`, lines 1093-1138)

An entry's data dictionary holds `date`, `path` and `contents` after a
scan; `search` adds an `excerpt` key to the dictionaries of matching
entries (`data['excerpt'] = ...` mutates the dict stored in
`self.entries`).  The index `self.entries` is the insertion-ordered dict
of key/data pairs built by `_parse_files`. -/

/-- One entry's data dictionary.  `excerpt` is `none` when the dict has no
`excerpt` key (as after a fresh scan). -/
structure Data where
  date : Date
  path : String
  contents : String
  excerpt : Option String := none
deriving DecidableEq, Repr

/-- Python `needle in haystack` on strings: contiguous substring test. -/
def pyIn (needle hay : String) : Bool :=
  hay.data.tails.any (fun t => needle.data.isPrefixOf t)

/-- Python `str.lower()` (ASCII case folding suffices for this model). -/
def pyLower (s : String) : String := ⟨s.data.map Char.toLower⟩

/-- Python `str.startswith`. -/
def pyStartsWith (s pre : String) : Bool := pre.data.isPrefixOf s.data

/-- Python `str.endswith`. -/
def pyEndsWith (s suf : String) : Bool :=
  suf.data.reverse.isPrefixOf s.data.reverse

/-- Splitting a character list at every occurrence of a separator
character; the resulting list is always nonempty. -/
def splitChar (sep : Char) : List Char → List (List Char)
  | [] => [[]]
  | c :: rest =>
    match splitChar sep rest with
    | [] => [[c]]
    | h :: t => if c = sep then [] :: h :: t else (c :: h) :: t

/-- Python `s.split(chr(10))` (used by `search` to split contents into
lines). -/
def pySplitNL (s : String) : List String :=
  (splitChar (Char.ofNat 10) s.data).map String.mk

/-- Python `str.strip()`: remove leading and trailing whitespace. -/
def pyStrip (s : String) : String :=
  ⟨(((s.data.dropWhile Char.isWhitespace).reverse).dropWhile Char.isWhitespace).reverse⟩

/-- Python `(chr(10)).join(l)`. -/
def pyJoinNL (l : List String) : String :=
  ⟨List.intercalate [Char.ofNat 10] (l.map String.data)⟩

/-- The string the code actually compiles: `term[1:-2]` (drop the first
character and the last two). -/
def test_term (term : String) : String :=
  ⟨((term.data.drop 1).dropLast).dropLast⟩

/-- The interior of a delimited term, `term[1:-1]` (what the spec says the
compiled pattern should be). -/
def interior (term : String) : String :=
  ⟨(term.data.drop 1).dropLast⟩

/-- The search mode after lines 1103-1116: either a compiled regex or a
literal string. -/
inductive SMode where
  | regex (r : Re)
  | lit (t : String)
deriving DecidableEq, Repr

/-- Mode selection (lines 1103-1116) together with whether the non-fatal
"not a valid regex, falling back to regular search" warning was printed.
On compile failure `term` is left bound to the original full string. -/
def searchMode (term : String) : SMode × Bool :=
  if pyStartsWith term "/" && pyEndsWith term "/" then
    match re_compile (test_term term) with
    | some r => (.regex r, false)
    | none => (.lit term, true)
  else (.lit term, false)

/-- Python truthiness of the final `term` value at line 1117: a compiled
pattern object is always truthy; a string is truthy iff nonempty. -/
def modeTruthy : SMode → Bool
  | .regex _ => true
  | .lit t => !t.data.isEmpty

/-- Per-line match test (lines 1124-1129): `re.search(term, line)` in regex
mode, case-insensitive substring test `term.lower() in line.lower()` in
literal mode. -/
def lineMatch : SMode → String → Bool
  | .regex r, line => reSearch r line
  | .lit t, line => pyIn (pyLower t) (pyLower line)

/-- The loop body of lines 1119-1133 over the index: returns the updated
index (matching entries get their `excerpt` key set in place) and the
collected `result_events` list. -/
def searchGo (mode : SMode) : List (String × Data) → List (String × Data) × List Data
  | [] => ([], [])
  | (k, d) :: rest =>
    let lines := pySplitNL d.contents
    let found := (lines.filter (lineMatch mode)).map pyStrip
    let acc := searchGo mode rest
    if found.isEmpty then ((k, d) :: acc.1, acc.2)
    else
      let d2 : Data := { d with excerpt := some (pyJoinNL found) }
      ((k, d2) :: acc.1, d2 :: acc.2)

/-- Result of `Entries.search`: the index after the call (search mutates
matching entries in place), the produced result list (`none` when the
`if term:` guard is falsy and the whole search body is skipped), and
whether the invalid-regex warning was printed. -/
structure SearchOut where
  upd : List (String × Data)
  results : Option (List Data)
  warned : Bool
deriving DecidableEq, Repr

/-- `Entries.search` (lines 1093-1138). -/
def search (entries : List (String × Data)) (term : String) : SearchOut :=
  let mw := searchMode term
  if modeTruthy mw.1 then
    let go := searchGo mw.1 entries
    ⟨go.1, some go.2, mw.2⟩
  else ⟨entries, none, mw.2⟩

/-! ### Directory scan (model of `Entries._parse_files`, lines 517-564)

`_parse_files` walks the data directory with `os.scandir`, keeps regular
files (honouring the optional `file_ext` filter), classifies each derived
name with `_date_or_none`, reads the file contents (a read failure prints
a warning and skips the file), collects the survivors into the dict
`temp_entries`, and finally rebuilds `self.entries` sorted ascending by
date (`sorted` with key `x[1]` only — a stable sort with no secondary
key). -/

/-- Lexicographic comparison of character lists by code point. -/
def charListLt : List Char → List Char → Bool
  | [], [] => false
  | [], _ :: _ => true
  | _ :: _, [] => false
  | a :: as, b :: bs =>
    if a.toNat < b.toNat then true
    else if b.toNat < a.toNat then false
    else charListLt as bs

/-- Python `a < b` on strings: lexicographic by code point. -/
def pyStrLt (a b : String) : Bool := charListLt a.data b.data

/-- One `os.DirEntry` of the data directory: its name, whether it is a
regular file, and its contents (`none` models a read failure). -/
structure FileEnt where
  name : String
  is_file : Bool
  contents : Option String
deriving DecidableEq, Repr

/-- Remove every occurrence of the (nonempty) pattern from a character
list, scanning left to right: Python `s.replace(pat, t)` with an empty
replacement.  Structural fuel keeps the recursion kernel-reducible;
`pyReplaceDel` supplies fuel covering the whole input. -/
def removeAllF (pat : List Char) : Nat → List Char → List Char
  | 0, l => l
  | _ + 1, [] => []
  | fuel + 1, c :: rest =>
    if pat.isPrefixOf (c :: rest) then removeAllF pat fuel (rest.drop (pat.length - 1))
    else c :: removeAllF pat fuel rest

/-- Python `s.replace(pat, chr(0x30)[0:0])`, i.e. delete all occurrences of
`pat` (the code calls `entry.name.replace(f".=ext=", ...)` with an empty
replacement string, which deletes every occurrence, not only a suffix). -/
def pyReplaceDel (s pat : String) : String :=
  ⟨removeAllF pat.data s.data.length s.data⟩

/-- The key derived from a filename (lines 530-538): with an extension
configured, the `.=ext=` pattern is deleted from the name; otherwise the
name itself is the key. -/
def keyName (file_ext : Option String) (n : String) : String :=
  match file_ext with
  | some ext => pyReplaceDel n ("." ++ ext)
  | none => n

/-- Does a directory entry qualify for classification (lines 530-538)?
With an extension configured the name must end in `.=ext=` and the entry
must be a regular file; otherwise any regular file qualifies. -/
def qualifies (file_ext : Option String) (e : FileEnt) : Bool :=
  match file_ext with
  | some ext => pyEndsWith e.name ("." ++ ext) && e.is_file
  | none => e.is_file

/-- Python dict assignment `d[k] = v`: an existing key keeps its position
and gets the new value; a new key is appended. -/
def dictInsert (l : List (String × Data)) (k : String) (v : Data) : List (String × Data) :=
  match l with
  | [] => [(k, v)]
  | (k2, v2) :: rest =>
    if k2 = k then (k, v) :: rest else (k2, v2) :: dictInsert rest k v

/-- Python dict lookup `d[k]`. -/
def lookupA (l : List (String × Data)) (k : String) : Option Data :=
  match l with
  | [] => none
  | (k2, v2) :: rest => if k2 = k then some v2 else lookupA rest k

/-- The body of the loop of lines 527-553: process one directory entry,
inserting it into `temp_entries` when it qualifies, classifies as a date
and reads successfully. -/
def scanStep (data_dir : String) (file_ext : Option String)
    (temp : List (String × Data)) (e : FileEnt) : List (String × Data) :=
  if qualifies file_ext e then
    match parseISO (keyName file_ext e.name) with
    | some dt =>
      match e.contents with
      | some c =>
        dictInsert temp (keyName file_ext e.name)
          ⟨dt, data_dir ++ "/" ++ e.name, c, none⟩
      | none => temp
    | none => temp
  else temp

/-- The loop of lines 527-553 building `temp_entries` in scan order. -/
def scanFold (data_dir : String) (file_ext : Option String)
    (dir : List FileEnt) : List (String × Data) :=
  dir.foldl (scanStep data_dir file_ext) []

/-- The entries that qualify, classify as dates and read successfully, in
directory scan order, with their derived keys. -/
def scanList (data_dir : String) (file_ext : Option String)
    (dir : List FileEnt) : List (String × Data) :=
  dir.filterMap
    (fun e =>
      if qualifies file_ext e then
        match parseISO (keyName file_ext e.name), e.contents with
        | some dt, some c =>
          some (keyName file_ext e.name, ⟨dt, data_dir ++ "/" ++ e.name, c, none⟩)
        | _, _ => none
      else none)

/-- Ordering of `(key, date)` pairs by date only, as used by the sort at
line 560 (`sorted(fifoentries.items(), key=lambda x: x[1])`). -/
def pairDateLe (a b : String × Date) : Prop := dateLe a.2 b.2

instance : DecidableRel pairDateLe := fun a b =>
  inferInstanceAs (Decidable (dateLe a.2 b.2))

instance : IsTotal (String × Date) pairDateLe :=
  ⟨fun a b => dateLe_total a.2 b.2⟩

instance : IsTrans (String × Date) pairDateLe :=
  ⟨fun _ _ _ h1 h2 => dateLe_trans h1 h2⟩

/-- Ordering of `(key, data)` pairs by the data's date. -/
def entryDateLe (a b : String × Data) : Prop := dateLe a.2.date b.2.date

instance : DecidableRel entryDateLe := fun a b =>
  inferInstanceAs (Decidable (dateLe a.2.date b.2.date))

instance : IsTotal (String × Data) entryDateLe :=
  ⟨fun a b => dateLe_total a.2.date b.2.date⟩

instance : IsTrans (String × Data) entryDateLe :=
  ⟨fun _ _ _ h1 h2 => dateLe_trans h1 h2⟩

/-- `Entries._parse_files` (lines 517-564): build `temp_entries` in scan
order, project each entry to its date (`fifoentries`), sort the pairs
stably by date (Python `sorted` is stable and the key is the date only),
and rebuild the index by looking each sorted key up in `temp_entries`.
`List.insertionSort` places an element before the first element it is
≤ to and is therefore stable in the same way as Python `sorted`. -/
def parse_files (data_dir : String) (file_ext : Option String)
    (dir : List FileEnt) : List (String × Data) :=
  let temp := scanFold data_dir file_ext dir
  let fifo := temp.map (fun kv => (kv.1, kv.2.date))
  let sortlist := List.insertionSort pairDateLe fifo
  sortlist.filterMap (fun kv => (lookupA temp kv.1).map (fun v => (kv.1, v)))

/-! ### View selection (model of `Entries.list`, lines 968-1087)

`list` parses the optional custom boundaries with `_date_or_none`,
lowercases the view name, computes week boundaries from the configured
first weekday via `calendar.Calendar.iterweekdays`, month boundaries via
`calendar.monthrange` (with December-of-previous-year rollover when the
current month is January), year boundaries, and then filters
`self.entries` by the inclusive range of the selected view.  Unknown view
names, and a custom view whose boundaries are missing or unparseable,
reach the trailing `else` which reports
"invalid view name or custom date/time range". -/

/-- `calendar.Calendar(firstweekday=fw).iterweekdays()`: the weekday
numbers `fw, fw+1, ..., fw+6`, each reduced mod 7. -/
def iterweekdays (fw : Nat) : List Nat :=
  (List.range 7).map (fun i => (fw + i) % 7)

/-- Line 1000: `today - timedelta(days=list(cal.iterweekdays()).index(today_wd))`. -/
def this_week_start (today : Date) (fw : Nat) : Date :=
  subDays today ((iterweekdays fw).indexOf (pyWeekday today))

/-- The filtering loop shared by all view branches: keep the entries whose
date lies in the inclusive range, in index order. -/
def selectRange (entries : List (String × Data)) (s e : Date) : List Data :=
  (entries.filter
    (fun kd => decide (dateLe s kd.2.date) && decide (dateLe kd.2.date e))).map
    (fun kd => kd.2)

/-- What a successful `list` call passes to `_print_entries_list`: the
selected entries, the view label, and the calendar context (week start,
or month/year numbers). -/
structure ViewOut where
  selected : List Data
  label : String
  weekstart : Option Date
  month : Option Nat
  year : Option Nat
deriving DecidableEq, Repr

deriving instance DecidableEq for Except

/-- The error message of line 1086. -/
def invalidViewMsg : String := "invalid view name or custom date/time range"

/-- `Entries.list` (lines 968-1087).  `today` is a parameter standing for
`date.today()`; `.error` models the `_handle_error` call (which prints in
interactive mode and exits otherwise, selecting nothing either way). -/
def list_view (entries : List (String × Data)) (view : String) (today : Date)
    (first_weekday : Nat) (start0 end0 : Option String) : Except String ViewOut :=
  let start := start0.bind parseISO
  let endd := end0.bind parseISO
  let v := pyLower view
  let this_year := today.year
  let last_year := this_year - 1
  let this_month := today.month
  let this_month_ld := daysInMonth this_year this_month
  let lm := if this_month - 1 = 0 then (12, this_year - 1) else (this_month - 1, this_year)
  let last_month_ld := daysInMonth lm.2 lm.1
  let tws := this_week_start today first_weekday
  let twe := addDays tws 6
  let lws := subDays tws 7
  let lwe := addDays lws 6
  if v = "thisweek" then
    .ok ⟨selectRange entries tws twe, "this week", some tws, none, none⟩
  else if v = "lastweek" then
    .ok ⟨selectRange entries lws lwe, "last week", some lws, none, none⟩
  else if v = "thismonth" then
    .ok ⟨selectRange entries ⟨this_year, this_month, 1⟩ ⟨this_year, this_month, this_month_ld⟩,
      "this month", none, some this_month, some this_year⟩
  else if v = "lastmonth" then
    .ok ⟨selectRange entries ⟨lm.2, lm.1, 1⟩ ⟨lm.2, lm.1, last_month_ld⟩,
      "last month", none, some lm.1, some lm.2⟩
  else if v = "thisyear" then
    .ok ⟨selectRange entries ⟨this_year, 1, 1⟩ ⟨this_year, 12, 31⟩,
      "this year", none, none, some this_year⟩
  else if v = "lastyear" then
    .ok ⟨selectRange entries ⟨last_year, 1, 1⟩ ⟨last_year, 12, 31⟩,
      "last year", none, none, some last_year⟩
  else if v = "custom" then
    match start, endd with
    | some s, some e =>
      .ok ⟨selectRange entries s e,
        "custom\n[" ++ start0.getD "None" ++ " - " ++ end0.getD "None" ++ "]",
        none, none, none⟩
    | _, _ => .error invalidViewMsg
  else .error invalidViewMsg

/-! ### Helper lemmas about `search` -/

/-- The updated index after the search loop: matching entries get their
`excerpt` set, everything else is returned unchanged. -/
theorem searchGo_fst (mode : SMode) (l : List (String × Data)) :
    (searchGo mode l).1 = l.map (fun kd =>
      let lines := pySplitNL kd.2.contents
      let found := (lines.filter (lineMatch mode)).map pyStrip
      if found.isEmpty then kd
      else (kd.1, { kd.2 with excerpt := some (pyJoinNL found) })) := by
  induction l with
  | nil => rfl
  | cons kd rest ih =>
    obtain ⟨k, d⟩ := kd
    by_cases hf : (((pySplitNL d.contents).filter (lineMatch mode)).map pyStrip).isEmpty = true
    · simp only [searchGo, List.map_cons, hf]
      simp [ih]
    · rw [Bool.not_eq_true] at hf
      simp only [searchGo, List.map_cons, hf]
      simp [ih]

/-- A filtered-and-mapped line list is empty exactly when no line
matches. -/
theorem found_isEmpty (p : String → Bool) (lines : List String) :
    ((lines.filter p).map pyStrip).isEmpty = !(lines.any p) := by
  induction lines with
  | nil => rfl
  | cons a rest ih =>
    by_cases h : p a <;> simp [List.filter_cons, List.any_cons, h, ih]

/-- The result list of the search loop in filter form. -/
theorem searchGo_snd (mode : SMode) (l : List (String × Data)) :
    (searchGo mode l).2 = l.filterMap (fun kd =>
      let lines := pySplitNL kd.2.contents
      if lines.any (lineMatch mode) then
        some { kd.2 with
          excerpt := some (pyJoinNL ((lines.filter (lineMatch mode)).map pyStrip)) }
      else none) := by
  induction l with
  | nil => rfl
  | cons kd rest ih =>
    obtain ⟨k, d⟩ := kd
    by_cases h : (pySplitNL d.contents).any (lineMatch mode) = true
    · have hf : (((pySplitNL d.contents).filter (lineMatch mode)).map pyStrip).isEmpty = false := by
        rw [found_isEmpty, h]; rfl
      simp only [searchGo, List.filterMap_cons, h, hf]
      simp [ih]
    · rw [Bool.not_eq_true] at h
      have hf : (((pySplitNL d.contents).filter (lineMatch mode)).map pyStrip).isEmpty = true := by
        rw [found_isEmpty, h]; rfl
      simp only [searchGo, List.filterMap_cons, h, hf]
      simp [ih]

/-- A nonempty string has a nonempty character list. -/
theorem data_ne_empty {t : String} (h : t ≠ "") : t.data.isEmpty = false := by
  obtain ⟨l⟩ := t
  cases l with
  | nil => exact absurd rfl h
  | cons c cs => rfl

/-- A string starting with the delimiter is nonempty. -/
theorem startsWith_ne_empty {t : String} (h : pyStartsWith t "/" = true) :
    t.data.isEmpty = false := by
  obtain ⟨l⟩ := t
  cases l with
  | nil => exact absurd h (by decide)
  | cons c cs => rfl

/-- A nonempty term always makes the final `term` value truthy. -/
theorem modeTruthy_of_ne {term : String} (h : term ≠ "") :
    modeTruthy (searchMode term).1 = true := by
  unfold searchMode
  split
  · cases hre : re_compile (test_term term) with
    | some r => simp [modeTruthy]
    | none => simp [modeTruthy, data_ne_empty h]
  · simp [modeTruthy, data_ne_empty h]


/-! ### Claim theorems -/

/-- Claim C2 (code bug): for a term wrapped in `/` delimiters the code
compiles `term[1:-2]`, not the interior `term[1:-1]`.  At the concrete
term `"/ab/"` the compiled pattern string is `"a"` while the interior is
`"ab"`, and searching contents `"xay"` (which contain `a` but not `ab`)
produces a match, showing pattern `"a"` was used. -/
theorem search_compiles_term_one_short :
    test_term "/ab/" = "a"
    ∧ interior "/ab/" = "ab"
    ∧ test_term "/ab/" ≠ interior "/ab/"
    ∧ (search [("2024-01-05", ⟨⟨2024, 1, 5⟩, "p", "xay", none⟩)] "/ab/").results
        = some [⟨⟨2024, 1, 5⟩, "p", "xay", some "xay"⟩] := by
  refine ⟨by decide, by decide, by decide, by decide⟩

/-- Claim C9 (code bug): `_date_or_none` raises `AttributeError` on a pure
`datetime.date` input (only `datetime` has `astimezone`), contradicting
the never-raises contract; all other input shapes are classified without
raising, with parse failures yielding `None`. -/
theorem date_or_none_raises_on_date :
    date_or_none (.pydate ⟨2024, 1, 1⟩) = .error "AttributeError"
    ∧ date_or_none (.pydatetime ⟨2024, 1, 1⟩) = .ok (some (.asDatetime ⟨2024, 1, 1⟩))
    ∧ date_or_none .pynone = .ok none
    ∧ (∀ s : String, date_or_none (.pystr s) = .ok ((parseISO s).map .asDate))
    ∧ date_or_none (.pystr "not a date") = .ok none := by
  exact ⟨rfl, rfl, rfl, fun s => rfl, by decide⟩

/-- Claim C10, counterexample: after `search`, the matching entry stored in
the index carries the computed excerpt: the assignment at line 1132
mutates the dict held by `self.entries`, so the excerpt is persisted in
the index, contradicting "never mutates an Entry in place" and
"not persisted". -/
theorem search_persists_excerpt :
    (search [("2024-01-05", ⟨⟨2024, 1, 5⟩, "p", "hello", none⟩)] "hello").upd
      = [("2024-01-05", ⟨⟨2024, 1, 5⟩, "p", "hello", some "hello"⟩)]
    ∧ ((search [("2024-01-05", ⟨⟨2024, 1, 5⟩, "p", "hello", none⟩)] "hello").upd.map
        (fun kd => kd.2.excerpt)) ≠ [none] := by
  refine ⟨by decide, by decide⟩

/-- Claim C10 (amended): between scans, `search` is the only mutation of
the index and it only sets the `excerpt` field of matching entries (which
persists in the index); every entry keeps its key, date, path and
contents, and non-matching entries are untouched. -/
theorem search_mutates_excerpt_only (entries : List (String × Data)) (term : String) :
    ((search entries term).upd.map (fun kd => (kd.1, kd.2.date, kd.2.path, kd.2.contents))
        = entries.map (fun kd => (kd.1, kd.2.date, kd.2.path, kd.2.contents)))
    ∧ (search entries term).upd
        = (if modeTruthy (searchMode term).1 then
            entries.map (fun kd =>
              let lines := pySplitNL kd.2.contents
              let found := (lines.filter (lineMatch (searchMode term).1)).map pyStrip
              if found.isEmpty then kd
              else (kd.1, { kd.2 with excerpt := some (pyJoinNL found) }))
          else entries) := by
  have hupd : (search entries term).upd
      = (if modeTruthy (searchMode term).1 then
          entries.map (fun kd =>
            let lines := pySplitNL kd.2.contents
            let found := (lines.filter (lineMatch (searchMode term).1)).map pyStrip
            if found.isEmpty then kd
            else (kd.1, { kd.2 with excerpt := some (pyJoinNL found) }))
        else entries) := by
    unfold search
    by_cases ht : modeTruthy (searchMode term).1 = true
    · simp only [ht, if_true]
      exact searchGo_fst _ _
    · rw [Bool.not_eq_true] at ht
      simp only [ht, Bool.false_eq_true, if_false]
  refine ⟨?_, hupd⟩
  rw [hupd]
  by_cases ht : modeTruthy (searchMode term).1 = true
  · simp only [ht, if_true, List.map_map]
    apply List.map_congr_left
    intro kd _
    dsimp only [Function.comp]
    split
    · rfl
    · rfl
  · rw [Bool.not_eq_true] at ht
    simp only [ht, Bool.false_eq_true, if_false]

/-- Claim C3, counterexample: for the term `"/a[/"` the interior `"a["` is
not a valid regex, yet the code compiles `test_term "/a[/" = "a"`
successfully, so no warning is printed and regex matching with pattern
`"a"` is performed instead of literal matching with the full original
term (the literal `"/a[/"` does not occur in the contents `"za"`, yet the
entry is returned). -/
theorem search_invalid_interior_no_fallback :
    re_compile (interior "/a[/") = none
    ∧ (search [("2024-01-05", ⟨⟨2024, 1, 5⟩, "p", "za", none⟩)] "/a[/").warned = false
    ∧ (search [("2024-01-05", ⟨⟨2024, 1, 5⟩, "p", "za", none⟩)] "/a[/").results
        = some [⟨⟨2024, 1, 5⟩, "p", "za", some "za"⟩]
    ∧ pyIn (pyLower "/a[/") (pyLower "za") = false := by
  refine ⟨by decide, by decide, by decide, by decide⟩

/-- Claim C3 (amended): for every `/`-delimited term whose compiled
candidate `term[1:-2]` fails to compile, `search` prints the non-fatal
warning and proceeds with literal substring matching using the original
full term string, delimiters included. -/
theorem search_regex_fallback (entries : List (String × Data)) (term : String)
    (h1 : pyStartsWith term "/" = true) (h2 : pyEndsWith term "/" = true)
    (h3 : re_compile (test_term term) = none) :
    search entries term
      = ⟨(searchGo (.lit term) entries).1, some (searchGo (.lit term) entries).2, true⟩
    ∧ (∀ line, lineMatch (SMode.lit term) line = pyIn (pyLower term) (pyLower line)) := by
  have hterm : term ≠ "" := by
    intro hcon
    rw [hcon] at h1
    exact absurd h1 (by decide)
  have hmode : searchMode term = (.lit term, true) := by
    unfold searchMode
    rw [if_pos (by rw [h1, h2]; rfl), h3]
  have htruthy : modeTruthy (SMode.lit term) = true := by
    simp [modeTruthy, data_ne_empty hterm]
  constructor
  · unfold search
    rw [hmode]
    simp only [htruthy, if_true]
  · intro line
    rfl

/-- Witness for the amended claim C3 at the concrete term `"/[a(/"`. -/
theorem search_regex_fallback_witness :
    search [("2024-01-05", ⟨⟨2024, 1, 5⟩, "p", "x", none⟩)] "/[a(/"
      = ⟨(searchGo (.lit "/[a(/") [("2024-01-05", ⟨⟨2024, 1, 5⟩, "p", "x", none⟩)]).1,
         some (searchGo (.lit "/[a(/") [("2024-01-05", ⟨⟨2024, 1, 5⟩, "p", "x", none⟩)]).2,
         true⟩ :=
  (search_regex_fallback _ "/[a(/" (by decide) (by decide) (by decide)).1


/-- Dates of a filtered result list stay pairwise ordered when the
per-entry function preserves the date. -/
theorem pairwise_dateLe_filterMap (entries : List (String × Data))
    (f : (String × Data) → Option Data)
    (hf : ∀ kd d, f kd = some d → d.date = kd.2.date)
    (h : List.Pairwise entryDateLe entries) :
    List.Pairwise (fun a b : Data => dateLe a.date b.date) (entries.filterMap f) := by
  induction entries with
  | nil => exact List.Pairwise.nil
  | cons kd rest ih =>
    rw [List.filterMap_cons]
    cases hk : f kd with
    | none => exact ih h.tail
    | some d =>
      refine List.Pairwise.cons ?_ (ih h.tail)
      intro b hb
      obtain ⟨kd2, hkd2, hfb⟩ := List.mem_filterMap.mp hb
      rw [hf kd d hk, hf kd2 b hfb]
      exact List.rel_of_pairwise_cons h hkd2

/-- Claim C4, counterexample: for the empty search term the `if term:`
guard is falsy and the whole search body is skipped, so no result set is
produced at all, although the empty string occurs (case-insensitively) in
every line. -/
theorem search_empty_term_skipped :
    (search [("2024-01-05", ⟨⟨2024, 1, 5⟩, "p", "abc", none⟩)] "").results = none
    ∧ lineMatch (SMode.lit "") "abc" = true := by
  refine ⟨by decide, by decide⟩

/-- Claim C4 (amended): for every index and nonempty search term, a result
set is produced; an entry appears in it iff at least one of its
newline-split content lines matches the term under the selected mode
(case-insensitive substring for literal terms, `re.search` for regex
terms), its excerpt is the newline-joined whitespace-stripped matching
lines in original line order, entries with no matching line are excluded,
and the results follow the index's order, preserving ascending-date
order. -/
theorem search_results_characterised (entries : List (String × Data)) (term : String)
    (h : term ≠ "") :
    (search entries term).results
      = some (entries.filterMap (fun kd =>
          let lines := pySplitNL kd.2.contents
          if lines.any (lineMatch (searchMode term).1) then
            some { kd.2 with
              excerpt := some (pyJoinNL
                ((lines.filter (lineMatch (searchMode term).1)).map pyStrip)) }
          else none))
    ∧ (∀ kd ∈ entries, (pySplitNL kd.2.contents).any (lineMatch (searchMode term).1) = true →
        { kd.2 with
          excerpt := some (pyJoinNL
            (((pySplitNL kd.2.contents).filter (lineMatch (searchMode term).1)).map pyStrip)) }
          ∈ ((search entries term).results).getD [])
    ∧ (∀ r ∈ ((search entries term).results).getD [], ∃ kd ∈ entries,
        (pySplitNL kd.2.contents).any (lineMatch (searchMode term).1) = true
        ∧ r = { kd.2 with
            excerpt := some (pyJoinNL
              (((pySplitNL kd.2.contents).filter (lineMatch (searchMode term).1)).map pyStrip)) })
    ∧ (List.Pairwise entryDateLe entries →
        List.Pairwise (fun a b : Data => dateLe a.date b.date)
          (((search entries term).results).getD [])) := by
  have ht := modeTruthy_of_ne h
  have hres : (search entries term).results
      = some (entries.filterMap (fun kd =>
          let lines := pySplitNL kd.2.contents
          if lines.any (lineMatch (searchMode term).1) then
            some { kd.2 with
              excerpt := some (pyJoinNL
                ((lines.filter (lineMatch (searchMode term).1)).map pyStrip)) }
          else none)) := by
    unfold search
    simp only [ht, if_true]
    rw [searchGo_snd]
  have hpres : ∀ (kd : String × Data) (d : Data),
      (if (pySplitNL kd.2.contents).any (lineMatch (searchMode term).1) then
        some { kd.2 with
          excerpt := some (pyJoinNL
            (((pySplitNL kd.2.contents).filter (lineMatch (searchMode term).1)).map pyStrip)) }
      else none) = some d → d.date = kd.2.date := by
    intro kd d hk
    split at hk
    · cases hk; rfl
    · exact absurd hk (by simp)
  refine ⟨hres, ?_, ?_, ?_⟩
  · intro kd hmem hmatch
    rw [hres]
    simp only [Option.getD_some]
    refine List.mem_filterMap.mpr ⟨kd, hmem, ?_⟩
    simp only [hmatch, if_true]
  · intro r hr
    rw [hres] at hr
    simp only [Option.getD_some] at hr
    obtain ⟨kd, hmem, hk⟩ := List.mem_filterMap.mp hr
    refine ⟨kd, hmem, ?_⟩
    by_cases hmatch : (pySplitNL kd.2.contents).any (lineMatch (searchMode term).1) = true
    · simp only [hmatch, if_true] at hk
      cases hk
      exact ⟨hmatch, rfl⟩
    · rw [Bool.not_eq_true] at hmatch
      simp only [hmatch, Bool.false_eq_true, if_false] at hk
      exact absurd hk (by simp)
  · intro hpair
    rw [hres]
    simp only [Option.getD_some]
    exact pairwise_dateLe_filterMap entries _ (fun kd d hk => hpres kd d hk) hpair

/-- Witness for the amended claim C4 on the spec's own example: searching
`"today"` over an entry containing the line `"Today: went running"`
(case-insensitive literal match). -/
theorem search_results_characterised_witness :
    (search [("2024-01-05", ⟨⟨2024, 1, 5⟩, "p", "Today: went running", none⟩)] "today").results
      = some [⟨⟨2024, 1, 5⟩, "p", "Today: went running", some "Today: went running"⟩]
    ∧ ("today" : String) ≠ "" := by
  have hc := (search_results_characterised
    [("2024-01-05", ⟨⟨2024, 1, 5⟩, "p", "Today: went running", none⟩)] "today"
    (by decide)).1
  refine ⟨?_, by decide⟩
  rw [hc]
  decide


/-- Claim C7: a `custom` view with a missing or unparseable boundary, and
any view name outside the seven supported ones (after lowercasing, since
`list` lowercases the view first), both reach the trailing `else` and
fail with the "invalid view name or custom date/time range" error; no
entries are selected. -/
theorem list_view_error_cases :
    (∀ (entries : List (String × Data)) (today : Date) (fw : Nat)
        (s0 e0 : Option String),
      (s0.bind parseISO = none ∨ e0.bind parseISO = none) →
      list_view entries "custom" today fw s0 e0 = .error invalidViewMsg)
    ∧ (∀ (entries : List (String × Data)) (view : String) (today : Date) (fw : Nat)
        (s0 e0 : Option String),
      pyLower view ∉ (["thisweek", "lastweek", "thismonth", "lastmonth",
        "thisyear", "lastyear", "custom"] : List String) →
      list_view entries view today fw s0 e0 = .error invalidViewMsg) := by
  constructor
  · intro entries today fw s0 e0 h
    unfold list_view
    rw [if_neg (by decide), if_neg (by decide), if_neg (by decide),
      if_neg (by decide), if_neg (by decide), if_neg (by decide),
      if_pos (by decide)]
    rcases h with h | h
    · rw [h]
    · rw [h]
      cases s0.bind parseISO <;> rfl
  · intro entries view today fw s0 e0 h
    have h1 : ¬(pyLower view = "thisweek") := fun hc => h (by rw [hc]; decide)
    have h2 : ¬(pyLower view = "lastweek") := fun hc => h (by rw [hc]; decide)
    have h3 : ¬(pyLower view = "thismonth") := fun hc => h (by rw [hc]; decide)
    have h4 : ¬(pyLower view = "lastmonth") := fun hc => h (by rw [hc]; decide)
    have h5 : ¬(pyLower view = "thisyear") := fun hc => h (by rw [hc]; decide)
    have h6 : ¬(pyLower view = "lastyear") := fun hc => h (by rw [hc]; decide)
    have h7 : ¬(pyLower view = "custom") := fun hc => h (by rw [hc]; decide)
    unfold list_view
    rw [if_neg h1, if_neg h2, if_neg h3, if_neg h4, if_neg h5, if_neg h6, if_neg h7]

/-- Witness for claim C7: the spec's concrete custom example (missing
start boundary) and an unknown view name. -/
theorem list_view_error_cases_witness :
    list_view [] "custom" ⟨2024, 1, 10⟩ 6 none (some "2024-01-01") = .error invalidViewMsg
    ∧ list_view [] "fortnight" ⟨2024, 1, 10⟩ 6 none none = .error invalidViewMsg := by
  constructor
  · exact list_view_error_cases.1 [] ⟨2024, 1, 10⟩ 6 none (some "2024-01-01")
      (Or.inl (by decide))
  · exact list_view_error_cases.2 [] "fortnight" ⟨2024, 1, 10⟩ 6 none none (by decide)

/-- Claim C8 counterexample: `"12:30"` is not an ISO calendar-date
string (the ISO parser rejects it), yet classification does not return
`None` on it: `dateutil.parser.parse` accepts the clock time and fills
the missing calendar fields from the current day, so with the current
day 2024-01-05 the classifier returns the date 2024-01-05 rather than
`None`. -/
theorem classify_time_string_counterexample :
    date_or_none_lenient ⟨2024, 1, 5⟩ "12:30" = some ⟨2024, 1, 5⟩
    ∧ date_or_none_lenient ⟨2024, 1, 5⟩ "12:30" ≠ none
    ∧ parseISO "12:30" = none := by
  refine ⟨by decide, by decide, by decide⟩

/-- Claim C8 (amended): classifying the ISO rendering (extended
`YYYY-MM-DD` or basic `YYYYMMDD`) of any representable date returns
exactly that date, whatever the current day is; but not every non-date
string yields `None`: the general, locale-tolerant parse accepts every
clock-time string `HH:MM` with an in-range hour and minute and
classifies it as the current day's calendar date, the missing calendar
fields being filled from today. -/
theorem classify_lenient_characterised :
    (∀ (today d : Date), d.valid →
      date_or_none_lenient today (renderISOext d) = some d
      ∧ date_or_none_lenient today (renderISObasic d) = some d)
    ∧ (∀ (today : Date) (hh mm : Nat), hh ≤ 23 → mm ≤ 59 →
      date_or_none_lenient today (renderTime hh mm) = some today) := by
  constructor
  · intro today d h
    exact ⟨parseISO_renderext h, parseISO_renderbasic h⟩
  · intro today hh mm h23 h59
    show (if (':' : Char) = ':' then
        (dig2 (digitChar (hh / 10)) (digitChar (hh % 10))).bind fun a =>
          (dig2 (digitChar (mm / 10)) (digitChar (mm % 10))).bind fun b =>
            if a ≤ 23 ∧ b ≤ 59 then some today else none
      else none) = some today
    rw [if_pos rfl, dig2_digits (by omega), dig2_digits (by omega)]
    simp only [Option.some_bind]
    rw [if_pos ⟨h23, h59⟩]

/-- Witness for claim C8 with the current day 2024-01-05: the ISO
rendering of 2024-03-15 classifies to 2024-03-15 and the clock time
12:30 classifies to the current day. -/
theorem classify_lenient_characterised_witness :
    date_or_none_lenient ⟨2024, 1, 5⟩ (renderISOext ⟨2024, 3, 15⟩) = some ⟨2024, 3, 15⟩
    ∧ date_or_none_lenient ⟨2024, 1, 5⟩ (renderTime 12 30) = some ⟨2024, 1, 5⟩ := by
  exact ⟨(classify_lenient_characterised.1 ⟨2024, 1, 5⟩ ⟨2024, 3, 15⟩ (by decide)).1,
    classify_lenient_characterised.2 ⟨2024, 1, 5⟩ 12 30 (by decide) (by decide)⟩


/-- Claim C6: selecting `lastmonth` with today = 2024-01-10 filters by the
inclusive range 2023-12-01 .. 2023-12-31, and in general a January
`today` rolls the previous-month boundaries over to December of the
prior year. -/
theorem lastmonth_selection :
    (∀ (entries : List (String × Data)) (fw : Nat),
      list_view entries "lastmonth" ⟨2024, 1, 10⟩ fw none none
        = .ok ⟨selectRange entries ⟨2023, 12, 1⟩ ⟨2023, 12, 31⟩, "last month",
            none, some 12, some 2023⟩)
    ∧ (∀ (entries : List (String × Data)) (fw : Nat) (today : Date),
        today.month = 1 →
        list_view entries "lastmonth" today fw none none
          = .ok ⟨selectRange entries ⟨today.year - 1, 12, 1⟩ ⟨today.year - 1, 12, 31⟩,
              "last month", none, some 12, some (today.year - 1)⟩) := by
  constructor
  · intro entries fw
    rfl
  · intro entries fw today h
    obtain ⟨y, m, dd⟩ := today
    simp only [Date.month_mk] at h
    subst h
    rfl

/-- Witness for claim C6, applying the general January-rollover clause at
today = 2024-01-10. -/
theorem lastmonth_selection_witness :
    list_view [("2023-12-05", ⟨⟨2023, 12, 5⟩, "p", "x", none⟩)]
        "lastmonth" ⟨2024, 1, 10⟩ 6 none none
      = .ok ⟨selectRange [("2023-12-05", ⟨⟨2023, 12, 5⟩, "p", "x", none⟩)]
          ⟨2024 - 1, 12, 1⟩ ⟨2024 - 1, 12, 31⟩, "last month", none, some 12, some (2024 - 1)⟩ :=
  lastmonth_selection.2 [("2023-12-05", ⟨⟨2023, 12, 5⟩, "p", "x", none⟩)] 6
    ⟨2024, 1, 10⟩ (by decide)

/-- `list.index(today_wd)` over `iterweekdays fw` computes the backward
distance from today's weekday to the configured first weekday. -/
theorem indexOf_iterweekdays {fw wd : Nat} (hfw : fw < 7) (hwd : wd < 7) :
    (iterweekdays fw).indexOf wd = (wd + 7 - fw) % 7 := by
  interval_cases fw <;> interval_cases wd <;> rfl

/-- The computed week start is well-formed and lies exactly
`(weekday(today) - fw) mod 7` days before today. -/
theorem week_start_facts (today : Date) (fw : Nat) (hok : today.okd)
    (hy2 : 2 ≤ today.year) (hfw : fw < 7) :
    (this_week_start today fw).okd
    ∧ toRD (this_week_start today fw) + ((pyWeekday today + 7 - fw) % 7) = toRD today := by
  have hwd : pyWeekday today < 7 := Nat.mod_lt _ (by omega)
  have hidx := indexOf_iterweekdays hfw hwd
  have hk : (pyWeekday today + 7 - fw) % 7 < 7 := Nat.mod_lt _ (by omega)
  have hbig := toRD_large hok hy2
  unfold this_week_start
  rw [hidx]
  exact toRD_subDays hok (by omega)

/-- The `thisweek` branch of `list`, as an equation. -/
theorem list_view_thisweek_eq (entries : List (String × Data)) (today : Date) (fw : Nat) :
    list_view entries "thisweek" today fw none none
      = .ok ⟨selectRange entries (this_week_start today fw)
          (addDays (this_week_start today fw) 6), "this week",
          some (this_week_start today fw), none, none⟩ := rfl

/-- Claim C5: with today = 2024-03-15 (a Friday) and first weekday 6
(Sunday), `thisweek` selects exactly the entries with dates in
2024-03-10 .. 2024-03-16; in general the selected range is the 7-day
span starting at the most recent occurrence of the configured first
weekday on or before today (the start has weekday `fw`, lies at most six
days before today, and no later day up to today has weekday `fw`). -/
theorem thisweek_selection :
    (∀ entries : List (String × Data),
      list_view entries "thisweek" ⟨2024, 3, 15⟩ 6 none none
        = .ok ⟨selectRange entries ⟨2024, 3, 10⟩ ⟨2024, 3, 16⟩, "this week",
            some ⟨2024, 3, 10⟩, none, none⟩)
    ∧ (∀ (entries : List (String × Data)) (today : Date) (fw : Nat),
        today.okd → 2 ≤ today.year → fw < 7 →
        list_view entries "thisweek" today fw none none
          = .ok ⟨selectRange entries (this_week_start today fw)
              (addDays (this_week_start today fw) 6), "this week",
              some (this_week_start today fw), none, none⟩
        ∧ pyWeekday (this_week_start today fw) = fw
        ∧ toRD (this_week_start today fw) ≤ toRD today
        ∧ toRD today ≤ toRD (this_week_start today fw) + 6
        ∧ (∀ n : Nat, toRD (this_week_start today fw) < n → n ≤ toRD today →
            (n + 6) % 7 ≠ fw)) := by
  constructor
  · intro entries
    rw [list_view_thisweek_eq]
    have hs : this_week_start ⟨2024, 3, 15⟩ 6 = ⟨2024, 3, 10⟩ := by decide
    have he : addDays (⟨2024, 3, 10⟩ : Date) 6 = ⟨2024, 3, 16⟩ := by decide
    rw [hs, he]
  · intro entries today fw hok hy2 hfw
    obtain ⟨hokS, hrd⟩ := week_start_facts today fw hok hy2 hfw
    have hk : (pyWeekday today + 7 - fw) % 7 < 7 := Nat.mod_lt _ (by omega)
    refine ⟨list_view_thisweek_eq _ _ _, ?_, by omega, by omega, ?_⟩
    · unfold pyWeekday at *
      omega
    · intro n h1 h2
      unfold pyWeekday at *
      omega

/-- Witness for claim C5 at today = 2024-03-15 with first weekday 6. -/
theorem thisweek_selection_witness :
    Date.okd ⟨2024, 3, 15⟩
    ∧ pyWeekday (this_week_start ⟨2024, 3, 15⟩ 6) = 6
    ∧ list_view [] "thisweek" ⟨2024, 3, 15⟩ 6 none none
        = .ok ⟨selectRange [] (this_week_start ⟨2024, 3, 15⟩ 6)
            (addDays (this_week_start ⟨2024, 3, 15⟩ 6) 6), "this week",
            some (this_week_start ⟨2024, 3, 15⟩ 6), none, none⟩ := by
  have hc := thisweek_selection.2 [] ⟨2024, 3, 15⟩ 6 (by decide) (by decide) (by decide)
  exact ⟨by decide, hc.2.1, hc.1⟩


/-- Inserting a fresh key into a Python dict appends it. -/
theorem dictInsert_append {l : List (String × Data)} {k : String} {v : Data}
    (h : ∀ p ∈ l, p.1 ≠ k) :
    dictInsert l k v = l ++ [(k, v)] := by
  induction l with
  | nil => rfl
  | cons p rest ih =>
    obtain ⟨k2, v2⟩ := p
    have hne : k2 ≠ k := h (k2, v2) (List.mem_cons_self _ _)
    simp only [dictInsert, List.cons_append]
    rw [if_neg hne, ih (fun q hq => h q (List.mem_cons_of_mem _ hq))]

/-- One scan step either skips the entry or dict-inserts exactly the
element `scanList` records for it. -/
theorem scanStep_cases (data_dir : String) (file_ext : Option String)
    (e : FileEnt) (acc : List (String × Data)) :
    (scanStep data_dir file_ext acc e = acc ∧ scanList data_dir file_ext [e] = [])
    ∨ (∃ kv, scanStep data_dir file_ext acc e = dictInsert acc kv.1 kv.2
        ∧ scanList data_dir file_ext [e] = [kv]) := by
  unfold scanStep scanList
  by_cases hq : qualifies file_ext e = true
  · simp only [hq, if_true, List.filterMap_cons, List.filterMap_nil]
    cases hp : parseISO (keyName file_ext e.name) with
    | some dt =>
      cases hc : e.contents with
      | some c =>
        refine Or.inr ⟨(keyName file_ext e.name,
          ⟨dt, data_dir ++ "/" ++ e.name, c, none⟩), by trivial, by simp⟩
      | none => exact Or.inl ⟨by trivial, by simp⟩
    | none => exact Or.inl ⟨by trivial, by simp⟩
  · rw [Bool.not_eq_true] at hq
    simp only [hq, Bool.false_eq_true, if_false, List.filterMap_cons, List.filterMap_nil]
    exact Or.inl ⟨by trivial, by simp⟩

/-- `scanList` distributes over an initial entry. -/
theorem scanList_cons (data_dir : String) (file_ext : Option String)
    (e : FileEnt) (rest : List FileEnt) :
    scanList data_dir file_ext (e :: rest)
      = scanList data_dir file_ext [e] ++ scanList data_dir file_ext rest := by
  unfold scanList
  rw [show (e :: rest) = [e] ++ rest from rfl, List.filterMap_append]

/-- With pairwise-distinct derived keys the scan loop appends the
qualifying entries in scan order. -/
theorem scanFold_go (data_dir : String) (file_ext : Option String)
    (dir : List FileEnt) :
    ∀ acc : List (String × Data),
    ((acc.map Prod.fst) ++ (scanList data_dir file_ext dir).map Prod.fst).Nodup →
    dir.foldl (scanStep data_dir file_ext) acc = acc ++ scanList data_dir file_ext dir := by
  induction dir with
  | nil =>
    intro acc h
    simp [scanList]
  | cons e rest ih =>
    intro acc h
    rw [List.foldl_cons, scanList_cons]
    rw [scanList_cons] at h
    rcases scanStep_cases data_dir file_ext e acc with ⟨hstep, hnil⟩ | ⟨kv, hstep, hone⟩
    · rw [hstep, hnil]
      rw [hnil] at h
      simp only [List.nil_append] at h ⊢
      exact ih acc h
    · rw [hstep, hone]
      rw [hone] at h
      simp only [List.map_append, List.map_cons, List.map_nil, List.singleton_append] at h
      have hk : ∀ p ∈ acc, p.1 ≠ kv.1 := by
        intro p hp hcon
        rcases List.nodup_append.mp h with ⟨_, _, hdisj⟩
        exact hdisj (List.mem_map_of_mem Prod.fst hp)
          (by rw [hcon]; exact List.mem_cons_self _ _)
      rw [dictInsert_append hk]
      rw [ih (acc ++ [kv]) (by simpa [List.append_assoc] using h)]
      simp [List.append_assoc]

/-- Looking a key up in an association list with distinct keys recovers
the associated value. -/
theorem lookupA_mem {l : List (String × Data)} {k : String} {v : Data}
    (hnd : (l.map Prod.fst).Nodup) (hmem : (k, v) ∈ l) :
    lookupA l k = some v := by
  induction l with
  | nil => cases hmem
  | cons p rest ih =>
    obtain ⟨k2, v2⟩ := p
    rcases List.mem_cons.mp hmem with heq | hmem2
    · cases heq
      simp [lookupA]
    · have hk2 : k2 ≠ k := by
        intro hcon
        subst hcon
        have hmm : k2 ∈ rest.map Prod.fst := by
          have := List.mem_map_of_mem Prod.fst hmem2
          exact this
        rw [List.map_cons] at hnd
        exact (List.nodup_cons.mp hnd).1 hmm
      simp only [lookupA]
      rw [if_neg hk2]
      rw [List.map_cons] at hnd
      exact ih (List.nodup_cons.mp hnd).2 hmem2

/-- Inserting into the date-keyed projection commutes with projecting. -/
theorem orderedInsert_map_date (a : String × Data) (l : List (String × Data)) :
    List.orderedInsert pairDateLe (a.1, a.2.date) (l.map (fun kv => (kv.1, kv.2.date)))
      = (List.orderedInsert entryDateLe a l).map (fun kv => (kv.1, kv.2.date)) := by
  induction l with
  | nil => rfl
  | cons b bs ih =>
    simp only [List.map_cons, List.orderedInsert]
    by_cases h : entryDateLe a b
    · rw [if_pos h, if_pos (show pairDateLe (a.1, a.2.date) (b.1, b.2.date) from h)]
      simp
    · rw [if_neg h, if_neg (show ¬pairDateLe (a.1, a.2.date) (b.1, b.2.date) from h)]
      simp only [List.map_cons]
      rw [ih]

/-- Stable-sorting the `(key, date)` projection commutes with projecting
the stable sort of the full pairs. -/
theorem insertionSort_map_date (l : List (String × Data)) :
    List.insertionSort pairDateLe (l.map (fun kv => (kv.1, kv.2.date)))
      = (List.insertionSort entryDateLe l).map (fun kv => (kv.1, kv.2.date)) := by
  induction l with
  | nil => rfl
  | cons a as ih =>
    simp only [List.map_cons, List.insertionSort]
    rw [ih]
    exact orderedInsert_map_date a (List.insertionSort entryDateLe as)

/-- Rebuilding the sorted pairs by key lookup recovers the sorted list. -/
theorem filterMap_lookup_map (temp M : List (String × Data))
    (hmem : ∀ p ∈ M, lookupA temp p.1 = some p.2) :
    (M.map (fun kv => (kv.1, kv.2.date))).filterMap
      (fun kv => (lookupA temp kv.1).map (fun v => (kv.1, v))) = M := by
  induction M with
  | nil => rfl
  | cons p rest ih =>
    simp only [List.map_cons, List.filterMap_cons]
    have h1 := hmem p (List.mem_cons_self _ _)
    simp [h1, ih (fun q hq => hmem q (List.mem_cons_of_mem _ hq))]

/-- Claim C1, counterexample: two filenames that classify as the same date
(`20240105` and `2024-01-05`, both ISO renderings of 2024-01-05).  The
sort key is the date only and Python `sorted` is stable, so the index
iterates them in directory-scan order `20240105, 2024-01-05`, although
`2024-01-05` is smaller in key-string order — ties are not broken by key
string order. -/
theorem parse_files_tie_counterexample :
    (parse_files "journal" none
        [⟨"20240105", true, some "A"⟩, ⟨"2024-01-05", true, some "B"⟩]).map Prod.fst
      = ["20240105", "2024-01-05"]
    ∧ parseISO "20240105" = some ⟨2024, 1, 5⟩
    ∧ parseISO "2024-01-05" = some ⟨2024, 1, 5⟩
    ∧ pyStrLt "2024-01-05" "20240105" = true := by
  refine ⟨by decide, by decide, by decide, by decide⟩

/-- Claim C1 (amended): provided the derived keys of the qualifying files
are pairwise distinct (equal keys would overwrite each other in the
`temp_entries` dict), `_parse_files` produces exactly the stable
date-sort of the qualifying files in scan order: it indexes exactly the
files whose names classify as valid dates (non-date files and read
failures are skipped), iteration order is non-decreasing by date, and
ties keep directory-scan order rather than key order. -/
theorem parse_files_sorted (data_dir : String) (file_ext : Option String)
    (dir : List FileEnt)
    (hkeys : ((scanList data_dir file_ext dir).map Prod.fst).Nodup) :
    parse_files data_dir file_ext dir
      = List.insertionSort entryDateLe (scanList data_dir file_ext dir)
    ∧ List.Pairwise entryDateLe (parse_files data_dir file_ext dir)
    ∧ List.Perm ((parse_files data_dir file_ext dir).map Prod.fst)
        ((scanList data_dir file_ext dir).map Prod.fst) := by
  have htemp : scanFold data_dir file_ext dir = scanList data_dir file_ext dir := by
    unfold scanFold
    have hgo := scanFold_go data_dir file_ext dir [] (by simpa using hkeys)
    simpa using hgo
  have heq : parse_files data_dir file_ext dir
      = List.insertionSort entryDateLe (scanList data_dir file_ext dir) := by
    rw [show parse_files data_dir file_ext dir
        = (List.insertionSort pairDateLe
            ((scanFold data_dir file_ext dir).map (fun kv => (kv.1, kv.2.date)))).filterMap
            (fun kv => (lookupA (scanFold data_dir file_ext dir) kv.1).map (fun v => (kv.1, v)))
      from rfl]
    rw [htemp, insertionSort_map_date]
    apply filterMap_lookup_map
    intro p hp
    obtain ⟨k, v⟩ := p
    have hpmem : (k, v) ∈ scanList data_dir file_ext dir :=
      (List.perm_insertionSort entryDateLe _).subset hp
    exact lookupA_mem hkeys hpmem
  refine ⟨heq, ?_, ?_⟩
  · rw [heq]
    exact List.sorted_insertionSort entryDateLe _
  · rw [heq]
    exact (List.perm_insertionSort entryDateLe _).map Prod.fst

/-- Witness for the amended claim C1 on a directory containing a non-date
file, a directory entry and two date-named files in reverse date order. -/
theorem parse_files_sorted_witness :
    parse_files "journal" none
        [⟨"notes.txt", true, some "x"⟩, ⟨"2024-01-07", true, some "B"⟩,
         ⟨"2024-01-05", true, some "A"⟩, ⟨"subdir", false, some "y"⟩]
      = List.insertionSort entryDateLe (scanList "journal" none
          [⟨"notes.txt", true, some "x"⟩, ⟨"2024-01-07", true, some "B"⟩,
           ⟨"2024-01-05", true, some "A"⟩, ⟨"subdir", false, some "y"⟩])
    ∧ (parse_files "journal" none
        [⟨"notes.txt", true, some "x"⟩, ⟨"2024-01-07", true, some "B"⟩,
         ⟨"2024-01-05", true, some "A"⟩, ⟨"subdir", false, some "y"⟩]).map Prod.fst
      = ["2024-01-05", "2024-01-07"] := by
  have hc := parse_files_sorted "journal" none
    [⟨"notes.txt", true, some "x"⟩, ⟨"2024-01-07", true, some "B"⟩,
     ⟨"2024-01-05", true, some "A"⟩, ⟨"subdir", false, some "y"⟩] (by decide)
  exact ⟨hc.1, by decide⟩

end Nrrdjrnl
